import Mathlib

/-!
Shallow embedding of `src/scraper.py` (NES box-art scraper).

The pure parts (filename sanitizer, extension resolution, deduplication)
are translated directly.  The effectful pipeline in `main` is embedded as
explicit state passing: the in-memory progress record, the counters, the
list of `save_progress` snapshots, the fetch calls and rate-limit sleeps,
and the set of files on disk are all fields of a loop state, and each
iteration of the download loop is one application of `processItem`.
Network and filesystem outcomes are supplied by oracles.  Strings are
modelled over their character lists; Python's Unicode-aware `\s` / `strip`
/ `lower` are modelled on the ASCII range, which covers every input the
program manipulates.
-/

namespace Scraper

/-! ## Filename sanitizer (`sanitize_filename`, scraper.py lines 30-37) -/

/-- The characters removed by `re.sub(r'[<>:"/\\|?*]', '', name)`. -/
def illegalChars : List Char := ['<', '>', ':', '\"', '/', '\\', '|', '?', '*']

/-- Whitespace as matched by `\s` / stripped by `str.strip()` (ASCII range). -/
def pyIsSpace (c : Char) : Bool :=
  c = ' ' || c = '\t' || c = '\n' || c = '\r' || c = '\x0b' || c = '\x0c'

/-- Model of `name.strip()`: drop leading and trailing whitespace. -/
def pyStrip (l : List Char) : List Char :=
  ((l.dropWhile pyIsSpace).reverse.dropWhile pyIsSpace).reverse

/-- Model of `re.sub(r'\s+', '-', name)`: replace each maximal whitespace run by one
hyphen.  The flag records whether we are inside a whitespace run. -/
def collapseWsAux : Bool → List Char → List Char
  | _, [] => []
  | inRun, c :: cs =>
    if pyIsSpace c then
      if inRun then collapseWsAux true cs else '-' :: collapseWsAux true cs
    else c :: collapseWsAux false cs

/-- Model of `re.sub(r'-+', '-', name)`: collapse each run of hyphens to one. -/
def collapseHyAux : Bool → List Char → List Char
  | _, [] => []
  | inRun, c :: cs =>
    if c = '-' then
      if inRun then collapseHyAux true cs else '-' :: collapseHyAux true cs
    else c :: collapseHyAux false cs

/-- Model of `name.strip('-')`: drop leading and trailing hyphens. -/
def stripHyphens (l : List Char) : List Char :=
  ((l.dropWhile (fun c => c = '-')).reverse.dropWhile (fun c => c = '-')).reverse

/-- Model of `sanitize_filename` (scraper.py lines 30-37):
```
name = re.sub(r'[<>:"/\\|?*]', '', name)
name = re.sub(r'\s+', '-', name.strip())
name = re.sub(r'-+', '-', name)
name = name.strip('-')
return name.lower()[:100]
``` -/
def sanitize_filename (name : String) : String :=
  let l1 := name.data.filter (fun c => !(illegalChars.contains c))
  let l2 := collapseWsAux false (pyStrip l1)
  let l3 := collapseHyAux false l2
  let l4 := stripHyphens l3
  String.mk ((l4.map Char.toLower).take 100)

/-- The shared middle stages of the sanitizer (collapse whitespace,
collapse hyphens, trim hyphens), factored out for the proofs below. -/
def sanCore (l : List Char) : List Char :=
  stripHyphens (collapseHyAux false (collapseWsAux false l))

/-- The sanitizer algorithm exactly as the specification words it: strip
the illegal characters, collapse each whitespace run into one hyphen,
collapse hyphen runs, trim leading and trailing hyphens, lower-case, and
truncate to 100 characters after all other transformations.  It omits the
code's initial `str.strip()`, so its equality with `sanitize_filename`
below is a theorem, not a restatement. -/
def sanitize_spec (name : String) : String :=
  let l1 := name.data.filter (fun c => !(illegalChars.contains c))
  let l2 := collapseWsAux false l1
  let l3 := collapseHyAux false l2
  let l4 := stripHyphens l3
  String.mk ((l4.map Char.toLower).take 100)

/-- Whether the whitespace-collapse scanner is inside a run after reading
`l` starting from flag `b` (proof helper for the snoc lemmas). -/
def endWs (b : Bool) : List Char → Bool
  | [] => b
  | c :: cs => endWs (pyIsSpace c) cs

/-- Whether the hyphen-collapse scanner is inside a run after reading `l`
starting from flag `b`. -/
def endHy (b : Bool) : List Char → Bool
  | [] => b
  | c :: cs => endHy (decide (c = '-')) cs

/-! ## Extension resolution (`get_extension`, scraper.py lines 40-47) -/

/-- Locate `"://"` and return what follows it (used to skip scheme+netloc,
as `urllib.parse.urlparse` does for the URLs this program handles). -/
def afterScheme : List Char → Option (List Char)
  | ':' :: '/' :: '/' :: rest => some rest
  | _ :: rest => afterScheme rest
  | [] => none

/-- Model of `urlparse(url).path`: strip the fragment (after `#`), the query
(after `?`), and the scheme plus network location. -/
def urlPathChars (l : List Char) : List Char :=
  let l := (l.takeWhile (fun c => c ≠ '#')).takeWhile (fun c => c ≠ '?')
  match afterScheme l with
  | some rest => rest.dropWhile (fun c => c ≠ '/')
  | none => l

/-- Model of `os.path.splitext(path)[1]`: the suffix from the last dot of the final
path component, empty when there is no dot or only leading dots. -/
def splitextExt (path : List Char) : List Char :=
  let base := (path.reverse.takeWhile (fun c => c ≠ '/')).reverse
  let revTail := base.reverse.takeWhile (fun c => c ≠ '.')
  if revTail.length = base.length then []
  else
    let ext := '.' :: revTail.reverse
    let stem := base.take (base.length - ext.length)
    if stem.any (fun c => c ≠ '.') then ext else []

/-- The closed allow-list of scraper.py line 45. -/
def allowedExts : List String := [".jpg", ".jpeg", ".png", ".gif", ".webp", ".bmp"]

/-- Model of `get_extension` (scraper.py lines 40-47). -/
def get_extension (url : String) : String :=
  let ext := String.mk ((splitextExt (urlPathChars url.data)).map Char.toLower)
  if allowedExts.contains ext then ext else ".jpg"

/-! ## Data model -/

/-- One extracted item: `{'title': ..., 'image_url': ...}`. -/
structure Game where
  title : String
  image_url : String
deriving DecidableEq

/-- One entry of `progress["failed"]`: `{"title": ..., "url": ...}`. -/
structure FailedEntry where
  title : String
  url : String
deriving DecidableEq

/-- The persisted progress record `{"downloaded": [...], "failed": [...]}`. -/
structure Progress where
  downloaded : List String
  failed : List FailedEntry
deriving DecidableEq

/-! ## Deduplication (`extract_games_from_page`, scraper.py lines 123-131) -/

/-- The dedup loop: `seen_urls` is the set already emitted. -/
def dedupAux (seen : List String) : List Game → List Game
  | [] => []
  | g :: gs =>
    if g.image_url ∈ seen then dedupAux seen gs
    else g :: dedupAux (g.image_url :: seen) gs

/-- Deduplicate by `image_url`, keeping the first occurrence in order. -/
def dedupByUrl (gs : List Game) : List Game := dedupAux [] gs

/-! ## Fetcher (`download_image`, scraper.py lines 65-81) -/

/-- Outcome of `page.request.get(url)`: either a response (with its `ok`
flag, status and body) or a raised transport/decode exception. -/
inductive ReqResult where
  | resp (ok : Bool) (status : Nat) (body : List Nat)
  | throw (msg : String)
deriving DecidableEq

/-- Outcome of writing the body to disk: success or a raised exception. -/
inductive WriteResult where
  | ok
  | throw (msg : String)
deriving DecidableEq

/-- The body of the `try:` block in `download_image`: fetch, and on an `ok`
response write the file; any raised exception surfaces as `.error`. -/
def download_image_try (r : ReqResult) (w : WriteResult) : Except String Bool :=
  match r with
  | .throw m => .error m
  | .resp ok _ _ =>
    if ok then
      match w with
      | .ok => Except.ok true
      | .throw m => .error m
    else Except.ok false

/-- Model of `download_image`: the `except Exception` handler maps every raised
exception to `False`; a non-2xx response also returns `False`. -/
def download_image (r : ReqResult) (w : WriteResult) : Bool :=
  match download_image_try r w with
  | .ok b => b
  | .error _ => false

/-! ## The download loop (`main`, scraper.py lines 312-358) -/

/-- State of one run of the download loop.  `saves` records every
`save_progress` snapshot made so far, in order; `fetchCalls` the URLs
passed to `download_image`; `delays` the number of rate-limit sleeps;
`files` the filenames present in the output directory. -/
structure LoopState where
  progress : Progress
  downloadedCount : Nat
  skippedCount : Nat
  failedCount : Nat
  saves : List Progress
  fetchCalls : List String
  delays : Nat
  files : List String
deriving DecidableEq

/-- The candidate filename `f"{safe_name}-{counter}{ext}"`. -/
def candidateName (safe ext : String) (counter : Nat) : String :=
  safe ++ "-" ++ toString counter ++ ext

/-- The `while filepath.exists()` collision loop (scraper.py lines 331-334),
with fuel: among the first `fuel` numbered candidates at least one is free
whenever `fuel > |files|`, since the candidates are pairwise distinct. -/
def resolveLoop (files : List String) (safe ext : String) : Nat → Nat → String
  | 0, counter => candidateName safe ext counter
  | fuel + 1, counter =>
    let cand := candidateName safe ext counter
    if cand ∈ files then resolveLoop files safe ext fuel (counter + 1) else cand

/-- Collision-free filename resolution (scraper.py lines 328-334): try
`{safe}{ext}`, then `{safe}-1{ext}`, `{safe}-2{ext}`, ... -/
def resolveFilename (files : List String) (safe ext : String) : String :=
  let first := safe ++ ext
  if first ∈ files then resolveLoop files safe ext (files.length + 1) 1 else first

/-- One iteration of the `for i, game in enumerate(all_games, 1)` loop
(scraper.py lines 316-355).  `dlSet` is `downloaded_set`, computed once
from the loaded progress (line 187) and never updated inside the loop.
An item whose URL is in `dlSet` is skipped (`continue`): no fetch, no
progress change, no save check, no sleep.  Otherwise the filename is
resolved, `download_image` is consulted through the oracle, the progress
record and counters are updated, a checkpoint is saved when
`(downloaded_count + failed_count) % 10 == 0`, and the rate-limit sleep
runs. -/
def processItem (dlSet : List String) (oracle : String → ReqResult × WriteResult)
    (st : LoopState) (g : Game) : LoopState :=
  if g.image_url ∈ dlSet then
    { st with skippedCount := st.skippedCount + 1 }
  else
    let success := download_image (oracle g.image_url).1 (oracle g.image_url).2
    let fname := resolveFilename st.files (sanitize_filename g.title) (get_extension g.image_url)
    let newProgress : Progress :=
      if success then
        { st.progress with downloaded := st.progress.downloaded ++ [g.image_url] }
      else
        { st.progress with failed := st.progress.failed ++ [⟨g.title, g.image_url⟩] }
    let newD := if success then st.downloadedCount + 1 else st.downloadedCount
    let newF := if success then st.failedCount else st.failedCount + 1
    { progress := newProgress
      downloadedCount := newD
      skippedCount := st.skippedCount
      failedCount := newF
      saves := st.saves ++ (if (newD + newF) % 10 = 0 then [newProgress] else [])
      fetchCalls := st.fetchCalls ++ [g.image_url]
      delays := st.delays + 1
      files := if success then st.files ++ [fname] else st.files }

/-- The download loop over a list of items. -/
def runLoop (dlSet : List String) (oracle : String → ReqResult × WriteResult) :
    LoopState → List Game → LoopState
  | st, [] => st
  | st, g :: gs => runLoop dlSet oracle (processItem dlSet oracle st g) gs

/-- The loop state at the start of a run: counters zero, loaded progress,
no saves yet, the given files already on disk. -/
def initState (p0 : Progress) (files0 : List String) : LoopState :=
  { progress := p0
    downloadedCount := 0
    skippedCount := 0
    failedCount := 0
    saves := []
    fetchCalls := []
    delays := 0
    files := files0 }

/-- Result of one run of `main`'s download phase.  `saves` lists every
`save_progress` call of the run in order; `periodicSaves` only the
in-loop checkpoints of line 352. -/
structure RunResult where
  progress : Progress
  periodicSaves : List Progress
  saves : List Progress
  downloadedCount : Nat
  skippedCount : Nat
  failedCount : Nat
  total : Nat
  earlyReturn : Bool
  fetchCalls : List String
  delays : Nat
  files : List String
deriving DecidableEq

/-- The download phase of `main` on an already-extracted item list
(scraper.py lines 186-187 and 296-358): `downloaded_set` is built once
from the loaded progress; `if not all_games: ... return` exits early
without any `save_progress` call; otherwise the loop runs and one final
`save_progress` (line 358) follows it. -/
def runMain (allGames : List Game) (p0 : Progress)
    (oracle : String → ReqResult × WriteResult) (files0 : List String) : RunResult :=
  if allGames.isEmpty then
    { progress := p0
      periodicSaves := []
      saves := []
      downloadedCount := 0
      skippedCount := 0
      failedCount := 0
      total := allGames.length
      earlyReturn := true
      fetchCalls := []
      delays := 0
      files := files0 }
  else
    let st := runLoop p0.downloaded oracle (initState p0 files0) allGames
    { progress := st.progress
      periodicSaves := st.saves
      saves := st.saves ++ [st.progress]
      downloadedCount := st.downloadedCount
      skippedCount := st.skippedCount
      failedCount := st.failedCount
      total := allGames.length
      earlyReturn := false
      fetchCalls := st.fetchCalls
      delays := st.delays
      files := st.files }

/-- A full run: extraction deduplicates by URL (scraper.py lines 123-131),
then the download phase runs on the deduplicated list. -/
def runPipeline (items : List Game) (p0 : Progress)
    (oracle : String → ReqResult × WriteResult) (files0 : List String) : RunResult :=
  runMain (dedupByUrl items) p0 oracle files0

/-- A run aborted by an unrecoverable error after `k` loop iterations:
the `except` clause (line 370) re-raises and the `finally` clause (line
373) only closes the browser, so no `save_progress` call happens after
the abort — the run's saves are exactly the periodic checkpoints already
made. -/
def runPipelineAborted (items : List Game) (k : Nat) (p0 : Progress)
    (oracle : String → ReqResult × WriteResult) (files0 : List String) : RunResult :=
  let gs := dedupByUrl items
  if gs.isEmpty then
    { progress := p0
      periodicSaves := []
      saves := []
      downloadedCount := 0
      skippedCount := 0
      failedCount := 0
      total := gs.length
      earlyReturn := true
      fetchCalls := []
      delays := 0
      files := files0 }
  else
    let st := runLoop p0.downloaded oracle (initState p0 files0) (gs.take k)
    { progress := st.progress
      periodicSaves := st.saves
      saves := st.saves
      downloadedCount := st.downloadedCount
      skippedCount := st.skippedCount
      failedCount := st.failedCount
      total := gs.length
      earlyReturn := false
      fetchCalls := st.fetchCalls
      delays := st.delays
      files := st.files }

/-- An oracle under which every fetch succeeds and every write succeeds. -/
def okOracle : String → ReqResult × WriteResult :=
  fun _ => (ReqResult.resp true 200 [], WriteResult.ok)

/-- An oracle under which every fetch gets an HTTP 404 response. -/
def failOracle : String → ReqResult × WriteResult :=
  fun _ => (ReqResult.resp false 404 [], WriteResult.ok)

/-! ## Per-item characterization lemmas -/

theorem processItem_mem (dlSet : List String) (oracle : String → ReqResult × WriteResult)
    (st : LoopState) (g : Game) (h : g.image_url ∈ dlSet) :
    processItem dlSet oracle st g = { st with skippedCount := st.skippedCount + 1 } := by
  simp [processItem, h]

theorem processItem_not_mem_success (dlSet : List String)
    (oracle : String → ReqResult × WriteResult) (st : LoopState) (g : Game)
    (h : g.image_url ∉ dlSet)
    (hs : download_image (oracle g.image_url).1 (oracle g.image_url).2 = true) :
    processItem dlSet oracle st g =
      { progress := { st.progress with downloaded := st.progress.downloaded ++ [g.image_url] }
        downloadedCount := st.downloadedCount + 1
        skippedCount := st.skippedCount
        failedCount := st.failedCount
        saves := st.saves ++
          (if (st.downloadedCount + 1 + st.failedCount) % 10 = 0 then
            [{ st.progress with downloaded := st.progress.downloaded ++ [g.image_url] }] else [])
        fetchCalls := st.fetchCalls ++ [g.image_url]
        delays := st.delays + 1
        files := st.files ++
          [resolveFilename st.files (sanitize_filename g.title) (get_extension g.image_url)] } := by
  simp [processItem, h, hs]

theorem processItem_not_mem_failure (dlSet : List String)
    (oracle : String → ReqResult × WriteResult) (st : LoopState) (g : Game)
    (h : g.image_url ∉ dlSet)
    (hs : download_image (oracle g.image_url).1 (oracle g.image_url).2 = false) :
    processItem dlSet oracle st g =
      { progress := { st.progress with failed := st.progress.failed ++ [⟨g.title, g.image_url⟩] }
        downloadedCount := st.downloadedCount
        skippedCount := st.skippedCount
        failedCount := st.failedCount + 1
        saves := st.saves ++
          (if (st.downloadedCount + (st.failedCount + 1)) % 10 = 0 then
            [{ st.progress with failed := st.progress.failed ++ [⟨g.title, g.image_url⟩] }] else [])
        fetchCalls := st.fetchCalls ++ [g.image_url]
        delays := st.delays + 1
        files := st.files } := by
  simp [processItem, h, hs]

/-- Each processed item increments exactly one of the three counters. -/
theorem processItem_counts (dlSet : List String) (oracle : String → ReqResult × WriteResult)
    (st : LoopState) (g : Game) :
    (processItem dlSet oracle st g).downloadedCount + (processItem dlSet oracle st g).skippedCount
      + (processItem dlSet oracle st g).failedCount
    = st.downloadedCount + st.skippedCount + st.failedCount + 1 := by
  by_cases h : g.image_url ∈ dlSet
  · rw [processItem_mem dlSet oracle st g h]; simp; omega
  · rcases hs : download_image (oracle g.image_url).1 (oracle g.image_url).2 with _ | _
    · rw [processItem_not_mem_failure dlSet oracle st g h hs]; simp; omega
    · rw [processItem_not_mem_success dlSet oracle st g h hs]; simp; omega

/-- Progress lists only grow at each step. -/
theorem processItem_progress_mono (dlSet : List String)
    (oracle : String → ReqResult × WriteResult) (st : LoopState) (g : Game) :
    st.progress.downloaded <+: (processItem dlSet oracle st g).progress.downloaded ∧
      st.progress.failed <+: (processItem dlSet oracle st g).progress.failed := by
  by_cases h : g.image_url ∈ dlSet
  · rw [processItem_mem dlSet oracle st g h]
    exact ⟨List.prefix_refl _, List.prefix_refl _⟩
  · rcases hs : download_image (oracle g.image_url).1 (oracle g.image_url).2 with _ | _
    · rw [processItem_not_mem_failure dlSet oracle st g h hs]
      exact ⟨List.prefix_refl _, List.prefix_append _ _⟩
    · rw [processItem_not_mem_success dlSet oracle st g h hs]
      exact ⟨List.prefix_append _ _, List.prefix_refl _⟩

/-- Each step either saves nothing new or appends one snapshot, which is
the progress record current at the moment of the save. -/
theorem processItem_saves_cases (dlSet : List String)
    (oracle : String → ReqResult × WriteResult) (st : LoopState) (g : Game) :
    (processItem dlSet oracle st g).saves = st.saves ∨
    (processItem dlSet oracle st g).saves
      = st.saves ++ [(processItem dlSet oracle st g).progress] := by
  by_cases h : g.image_url ∈ dlSet
  · rw [processItem_mem dlSet oracle st g h]; left; rfl
  · rcases hs : download_image (oracle g.image_url).1 (oracle g.image_url).2 with _ | _
    · rw [processItem_not_mem_failure dlSet oracle st g h hs]
      by_cases hm : (st.downloadedCount + (st.failedCount + 1)) % 10 = 0
      · right; simp [hm]
      · left; simp [hm]
    · rw [processItem_not_mem_success dlSet oracle st g h hs]
      by_cases hm : (st.downloadedCount + 1 + st.failedCount) % 10 = 0
      · right; simp [hm]
      · left; simp [hm]

theorem processItem_failed_le (dlSet : List String)
    (oracle : String → ReqResult × WriteResult) (st : LoopState) (g : Game) :
    st.failedCount ≤ (processItem dlSet oracle st g).failedCount := by
  by_cases h : g.image_url ∈ dlSet
  · rw [processItem_mem dlSet oracle st g h]
  · rcases hs : download_image (oracle g.image_url).1 (oracle g.image_url).2 with _ | _
    · rw [processItem_not_mem_failure dlSet oracle st g h hs]; simp
    · rw [processItem_not_mem_success dlSet oracle st g h hs]

/-! ## Loop lemmas -/

theorem runLoop_cons (dlSet : List String) (oracle : String → ReqResult × WriteResult)
    (st : LoopState) (g : Game) (gs : List Game) :
    runLoop dlSet oracle st (g :: gs) = runLoop dlSet oracle (processItem dlSet oracle st g) gs :=
  rfl

theorem runLoop_counts (dlSet : List String) (oracle : String → ReqResult × WriteResult) :
    ∀ (gs : List Game) (st : LoopState),
      (runLoop dlSet oracle st gs).downloadedCount + (runLoop dlSet oracle st gs).skippedCount
        + (runLoop dlSet oracle st gs).failedCount
      = st.downloadedCount + st.skippedCount + st.failedCount + gs.length
  | [], st => by simp [runLoop]
  | g :: gs, st => by
    rw [runLoop_cons, runLoop_counts dlSet oracle gs, processItem_counts dlSet oracle st g]
    simp; omega

theorem runLoop_failed_le (dlSet : List String) (oracle : String → ReqResult × WriteResult) :
    ∀ (gs : List Game) (st : LoopState),
      st.failedCount ≤ (runLoop dlSet oracle st gs).failedCount
  | [], _ => Nat.le_refl _
  | g :: gs, st => by
    rw [runLoop_cons]
    exact Nat.le_trans (processItem_failed_le dlSet oracle st g)
      (runLoop_failed_le dlSet oracle gs _)

theorem runLoop_progress_mono (dlSet : List String)
    (oracle : String → ReqResult × WriteResult) :
    ∀ (gs : List Game) (st : LoopState),
      st.progress.downloaded <+: (runLoop dlSet oracle st gs).progress.downloaded ∧
        st.progress.failed <+: (runLoop dlSet oracle st gs).progress.failed
  | [], _ => ⟨List.prefix_refl _, List.prefix_refl _⟩
  | g :: gs, st => by
    rw [runLoop_cons]
    have h1 := processItem_progress_mono dlSet oracle st g
    have h2 := runLoop_progress_mono dlSet oracle gs (processItem dlSet oracle st g)
    exact ⟨h1.1.trans h2.1, h1.2.trans h2.2⟩

/-- Every checkpoint snapshot made during the loop extends the progress
record from any earlier point; snapshots already present are untouched. -/
theorem runLoop_saves_mono (dlSet : List String)
    (oracle : String → ReqResult × WriteResult) :
    ∀ (gs : List Game) (st : LoopState),
      ∀ s ∈ (runLoop dlSet oracle st gs).saves,
        s ∈ st.saves ∨
          (st.progress.downloaded <+: s.downloaded ∧ st.progress.failed <+: s.failed)
  | [], _ => fun _ hs => Or.inl hs
  | g :: gs, st => by
    rw [runLoop_cons]
    intro s hs
    have hmono := processItem_progress_mono dlSet oracle st g
    rcases runLoop_saves_mono dlSet oracle gs (processItem dlSet oracle st g) s hs with h | h
    · rcases processItem_saves_cases dlSet oracle st g with hc | hc
      · rw [hc] at h; exact Or.inl h
      · rw [hc, List.mem_append, List.mem_singleton] at h
        rcases h with h | h
        · exact Or.inl h
        · subst h; exact Or.inr ⟨hmono.1, hmono.2⟩
    · exact Or.inr ⟨hmono.1.trans h.1, hmono.2.trans h.2⟩

/-- If every URL of the item list is in `dlSet`, the loop only counts
skips: no fetch, no delay, no save, no progress change. -/
theorem runLoop_skip_all (dlSet : List String) (oracle : String → ReqResult × WriteResult) :
    ∀ (gs : List Game) (st : LoopState), (∀ g ∈ gs, g.image_url ∈ dlSet) →
      runLoop dlSet oracle st gs = { st with skippedCount := st.skippedCount + gs.length }
  | [], st, _ => by simp [runLoop]
  | g :: gs, st, h => by
    rw [runLoop_cons, processItem_mem dlSet oracle st g (h g (List.mem_cons_self g gs)),
      runLoop_skip_all dlSet oracle gs _ (fun x hx => h x (List.mem_cons_of_mem g hx))]
    have : st.skippedCount + 1 + gs.length = st.skippedCount + (gs.length + 1) := by omega
    simp [this]

/-- In a run with no new failures, every item's URL ends up in the
downloaded list (it was either skipped because of `dlSet`, or fetched
successfully and appended). -/
theorem runLoop_mem_downloaded (dlSet : List String)
    (oracle : String → ReqResult × WriteResult) :
    ∀ (gs : List Game) (st : LoopState),
      (runLoop dlSet oracle st gs).failedCount = st.failedCount →
      dlSet ⊆ st.progress.downloaded →
      ∀ g ∈ gs, g.image_url ∈ (runLoop dlSet oracle st gs).progress.downloaded
  | [], _, _, _ => by simp
  | g :: gs, st, hf, hsub => by
    rw [runLoop_cons] at hf ⊢
    intro x hx
    by_cases h : g.image_url ∈ dlSet
    · rw [processItem_mem dlSet oracle st g h] at hf ⊢
      rcases List.mem_cons.mp hx with hxg | hxgs
      · subst hxg
        exact ((runLoop_progress_mono dlSet oracle gs _).1.subset) (hsub h)
      · exact runLoop_mem_downloaded dlSet oracle gs _ hf hsub x hxgs
    · rcases hs : download_image (oracle g.image_url).1 (oracle g.image_url).2 with _ | _
      · exfalso
        have hle := runLoop_failed_le dlSet oracle gs (processItem dlSet oracle st g)
        rw [hf, processItem_not_mem_failure dlSet oracle st g h hs] at hle
        simp at hle
      · rw [processItem_not_mem_success dlSet oracle st g h hs] at hf ⊢
        rcases List.mem_cons.mp hx with hxg | hxgs
        · subst hxg
          exact ((runLoop_progress_mono dlSet oracle gs _).1.subset)
            (by simp)
        · exact runLoop_mem_downloaded dlSet oracle gs _ hf
            (fun u hu => by simp [hsub hu]) x hxgs

/-! ## Deduplication lemmas -/

theorem dedupAux_sublist : ∀ (gs : List Game) (seen : List String), (dedupAux seen gs).Sublist gs
  | [], _ => List.Sublist.refl _
  | g :: gs, seen => by
    unfold dedupAux
    by_cases h : g.image_url ∈ seen
    · rw [if_pos h]; exact (dedupAux_sublist gs seen).cons g
    · rw [if_neg h]; exact (dedupAux_sublist gs _).cons₂ g

theorem dedupAux_not_mem_seen : ∀ (gs : List Game) (seen : List String) (g : Game),
    g ∈ dedupAux seen gs → g.image_url ∉ seen
  | [], _, _ => by simp [dedupAux]
  | g :: gs, seen, x => by
    unfold dedupAux
    by_cases h : g.image_url ∈ seen
    · rw [if_pos h]; exact dedupAux_not_mem_seen gs seen x
    · rw [if_neg h]
      intro hx
      rcases List.mem_cons.mp hx with hxg | hxgs
      · subst hxg; exact h
      · have := dedupAux_not_mem_seen gs _ x hxgs
        exact fun hs => this (List.mem_cons_of_mem _ hs)

theorem dedupAux_nodup_urls : ∀ (gs : List Game) (seen : List String),
    ((dedupAux seen gs).map Game.image_url).Nodup
  | [], _ => by simp [dedupAux]
  | g :: gs, seen => by
    unfold dedupAux
    by_cases h : g.image_url ∈ seen
    · rw [if_pos h]; exact dedupAux_nodup_urls gs seen
    · rw [if_neg h]
      simp only [List.map_cons, List.nodup_cons]
      refine ⟨?_, dedupAux_nodup_urls gs _⟩
      intro hmem
      rcases List.mem_map.mp hmem with ⟨x, hx, hxu⟩
      refine dedupAux_not_mem_seen gs _ x hx ?_
      rw [hxu]
      exact List.mem_cons_self _ _

theorem dedupAux_cover : ∀ (gs : List Game) (seen : List String) (g : Game), g ∈ gs →
    g.image_url ∈ seen ∨ g.image_url ∈ (dedupAux seen gs).map Game.image_url
  | [], _, _, h => absurd h (List.not_mem_nil _)
  | x :: gs, seen, g, h => by
    unfold dedupAux
    by_cases hx : x.image_url ∈ seen
    · rw [if_pos hx]
      rcases List.mem_cons.mp h with hg | hg
      · subst hg; exact Or.inl hx
      · exact dedupAux_cover gs seen g hg
    · rw [if_neg hx]
      rcases List.mem_cons.mp h with hg | hg
      · subst hg; right; simp
      · rcases dedupAux_cover gs (x.image_url :: seen) g hg with hmem | hmem
        · rcases List.mem_cons.mp hmem with h1 | h1
          · right; rw [h1]; simp
          · exact Or.inl h1
        · right; simp [hmem]

theorem dedupAux_first : ∀ (gs : List Game) (seen : List String) (g : Game),
    g ∈ dedupAux seen gs →
    gs.find? (fun x => x.image_url == g.image_url) = some g
  | [], _, _, h => absurd h (List.not_mem_nil _)
  | x :: gs, seen, g, h => by
    unfold dedupAux at h
    by_cases hx : x.image_url ∈ seen
    · rw [if_pos hx] at h
      have hg := dedupAux_not_mem_seen gs seen g h
      have hne : (x.image_url == g.image_url) = false := by
        rw [beq_eq_false_iff_ne]
        intro he; exact hg (he ▸ hx)
      rw [List.find?_cons, hne]
      exact dedupAux_first gs seen g h
    · rw [if_neg hx] at h
      rcases List.mem_cons.mp h with hg | hg
      · subst hg
        rw [List.find?_cons]
        simp
      · have hg2 := dedupAux_not_mem_seen gs _ g hg
        have hne : (x.image_url == g.image_url) = false := by
          rw [beq_eq_false_iff_ne]
          intro he
          refine hg2 ?_
          rw [← he]
          exact List.mem_cons_self _ _
        rw [List.find?_cons, hne]
        exact dedupAux_first gs _ g hg

theorem dedup_toFinset (gs : List Game) :
    ((dedupByUrl gs).map Game.image_url).toFinset = (gs.map Game.image_url).toFinset := by
  ext u
  simp only [List.mem_toFinset, List.mem_map]
  constructor
  · rintro ⟨x, hx, rfl⟩
    exact ⟨x, (dedupAux_sublist gs []).subset hx, rfl⟩
  · rintro ⟨x, hx, rfl⟩
    rcases dedupAux_cover gs [] x hx with h | h
    · simp at h
    · exact List.mem_map.mp h

theorem runPipeline_total (gs : List Game) (p0 : Progress)
    (oracle : String → ReqResult × WriteResult) (files0 : List String) :
    (runPipeline gs p0 oracle files0).total = (dedupByUrl gs).length := by
  unfold runPipeline runMain
  split <;> rfl

theorem dedup_length_distinct (gs : List Game) :
    (dedupByUrl gs).length = (gs.map Game.image_url).toFinset.card := by
  have h1 : ((dedupByUrl gs).map Game.image_url).toFinset.card
      = ((dedupByUrl gs).map Game.image_url).length :=
    List.toFinset_card_of_nodup (dedupAux_nodup_urls gs [])
  rw [← dedup_toFinset, h1, List.length_map]

/-! ## Claim theorems -/

/-- C5: `extract_games_from_page` deduplicates by `image_url` keeping the
first occurrence in first-seen order: the result is an order-preserving
sublist of the input with pairwise-distinct URLs in which every input URL
still occurs, each kept item is the first item of the input carrying its
URL, and the reported `total` is the number of distinct URLs; on
`[("A","u1"), ("B","u1"), ("C","u2")]` it keeps `("A","u1")` then
`("C","u2")` and `total = 2`. -/
theorem c5_dedup_by_url (gs : List Game) (p0 : Progress)
    (oracle : String → ReqResult × WriteResult) (files0 : List String) :
    dedupByUrl [⟨"A", "u1"⟩, ⟨"B", "u1"⟩, ⟨"C", "u2"⟩] = [⟨"A", "u1"⟩, ⟨"C", "u2"⟩] ∧
    (runPipeline [⟨"A", "u1"⟩, ⟨"B", "u1"⟩, ⟨"C", "u2"⟩] p0 oracle files0).total = 2 ∧
    (dedupByUrl gs).Sublist gs ∧
    ((dedupByUrl gs).map Game.image_url).Nodup ∧
    (∀ g ∈ gs, g.image_url ∈ (dedupByUrl gs).map Game.image_url) ∧
    (∀ g ∈ dedupByUrl gs, gs.find? (fun x => x.image_url == g.image_url) = some g) ∧
    (runPipeline gs p0 oracle files0).total = (gs.map Game.image_url).toFinset.card := by
  refine ⟨by decide, ?_, dedupAux_sublist gs [], dedupAux_nodup_urls gs [], ?_, ?_, ?_⟩
  · rw [runPipeline_total]; decide
  · intro g hg
    rcases dedupAux_cover gs [] g hg with h | h
    · simp at h
    · exact h
  · exact fun g hg => dedupAux_first gs [] g hg
  · rw [runPipeline_total]; exact dedup_length_distinct gs

/-- Witness for C5 at a concrete input: `("B","u1")`'s URL is covered by
the kept items, and the kept item `("C","u2")` is the first item of the
input with URL `"u2"`. -/
theorem c5_dedup_by_url_witness :
    (Game.mk "B" "u1").image_url
      ∈ (dedupByUrl [⟨"A", "u1"⟩, ⟨"B", "u1"⟩, ⟨"C", "u2"⟩]).map Game.image_url ∧
    ([⟨"A", "u1"⟩, ⟨"B", "u1"⟩, ⟨"C", "u2"⟩] : List Game).find?
        (fun x => x.image_url == (Game.mk "C" "u2").image_url) = some ⟨"C", "u2"⟩ := by
  have h := c5_dedup_by_url [⟨"A", "u1"⟩, ⟨"B", "u1"⟩, ⟨"C", "u2"⟩] ⟨[], []⟩ okOracle []
  exact ⟨h.2.2.2.2.1 ⟨"B", "u1"⟩ (by decide), h.2.2.2.2.2.1 ⟨"C", "u2"⟩ (by decide)⟩

/-- C2: an item of the deduplicated list is skipped — `skipped` is
incremented and nothing else in the loop state changes: no fetch, no
progress update, no save, no rate-limit sleep — exactly when its URL is in
the downloaded set built from the loaded progress record; when the URL is
not in that set the item is attempted (one fetch call, one sleep)
regardless of what the `failed` list of the loaded record contains, so a
previously-failed URL is re-attempted on the next run. -/
theorem c2_skip_iff_downloaded (p0 : Progress) (oracle : String → ReqResult × WriteResult)
    (st : LoopState) (g : Game) :
    (g.image_url ∈ p0.downloaded →
      processItem p0.downloaded oracle st g
        = { st with skippedCount := st.skippedCount + 1 }) ∧
    (g.image_url ∉ p0.downloaded →
      (processItem p0.downloaded oracle st g).skippedCount = st.skippedCount ∧
      (processItem p0.downloaded oracle st g).fetchCalls = st.fetchCalls ++ [g.image_url] ∧
      (processItem p0.downloaded oracle st g).delays = st.delays + 1) := by
  constructor
  · exact fun h => processItem_mem _ oracle st g h
  · intro h
    rcases hs : download_image (oracle g.image_url).1 (oracle g.image_url).2 with _ | _
    · rw [processItem_not_mem_failure _ oracle st g h hs]
      exact ⟨rfl, rfl, rfl⟩
    · rw [processItem_not_mem_success _ oracle st g h hs]
      exact ⟨rfl, rfl, rfl⟩

/-- Witness for C2: with loaded progress `{downloaded: ["u1"], failed:
[("B","u2")]}`, the item with URL `"u1"` is skipped, while the item with
URL `"u2"` — present only in `failed` — is fetched again. -/
theorem c2_skip_iff_downloaded_witness :
    processItem (Progress.mk ["u1"] [⟨"B", "u2"⟩]).downloaded okOracle
        (initState (Progress.mk ["u1"] [⟨"B", "u2"⟩]) []) ⟨"A", "u1"⟩
      = { initState (Progress.mk ["u1"] [⟨"B", "u2"⟩]) [] with
          skippedCount := (initState (Progress.mk ["u1"] [⟨"B", "u2"⟩]) []).skippedCount + 1 } ∧
    (processItem (Progress.mk ["u1"] [⟨"B", "u2"⟩]).downloaded okOracle
        (initState (Progress.mk ["u1"] [⟨"B", "u2"⟩]) []) ⟨"B", "u2"⟩).fetchCalls
      = (initState (Progress.mk ["u1"] [⟨"B", "u2"⟩]) []).fetchCalls ++ ["u2"] := by
  have h1 := c2_skip_iff_downloaded (Progress.mk ["u1"] [⟨"B", "u2"⟩]) okOracle
    (initState (Progress.mk ["u1"] [⟨"B", "u2"⟩]) []) ⟨"A", "u1"⟩
  have h2 := c2_skip_iff_downloaded (Progress.mk ["u1"] [⟨"B", "u2"⟩]) okOracle
    (initState (Progress.mk ["u1"] [⟨"B", "u2"⟩]) []) ⟨"B", "u2"⟩
  exact ⟨h1.1 (by decide), (h2.2 (by decide)).2.1⟩

/-- C8: one fetch attempt never raises to the pipeline loop.  Every
exception raised inside `download_image`'s `try` block is caught and
mapped to `False`, a non-2xx response returns `False` without raising,
and in the loop a failed attempt counts exactly one failure, appends
exactly one `{title, url}` entry to the failed list, performs exactly one
fetch call (no retry), leaves `downloaded` untouched, and the loop
continues with the remaining items. -/
theorem c8_error_containment (dlSet : List String) (oracle : String → ReqResult × WriteResult)
    (st : LoopState) (g : Game) (gs : List Game)
    (hmem : g.image_url ∉ dlSet)
    (hfail : download_image (oracle g.image_url).1 (oracle g.image_url).2 = false) :
    (∀ (r : ReqResult) (w : WriteResult) (m : String),
        download_image_try r w = Except.error m → download_image r w = false) ∧
    (∀ (status : Nat) (body : List Nat) (w : WriteResult),
        download_image (ReqResult.resp false status body) w = false) ∧
    (processItem dlSet oracle st g).failedCount = st.failedCount + 1 ∧
    (processItem dlSet oracle st g).progress.failed
      = st.progress.failed ++ [⟨g.title, g.image_url⟩] ∧
    (processItem dlSet oracle st g).progress.downloaded = st.progress.downloaded ∧
    (processItem dlSet oracle st g).fetchCalls = st.fetchCalls ++ [g.image_url] ∧
    runLoop dlSet oracle st (g :: gs) = runLoop dlSet oracle (processItem dlSet oracle st g) gs := by
  have hchar := processItem_not_mem_failure dlSet oracle st g hmem hfail
  refine ⟨?_, ?_, ?_, ?_, ?_, ?_, rfl⟩
  · intro r w m hm
    simp [download_image, hm]
  · intro status body w
    simp [download_image, download_image_try]
  · rw [hchar]
  · rw [hchar]
  · rw [hchar]
  · rw [hchar]

/-- Witness for C8: a concrete 404 response on URL `"u9"` is counted as
one failure with one fetch call. -/
theorem c8_error_containment_witness :
    (processItem [] failOracle (initState ⟨[], []⟩ []) ⟨"T", "u9"⟩).failedCount
      = (initState ⟨[], []⟩ []).failedCount + 1 ∧
    (processItem [] failOracle (initState ⟨[], []⟩ []) ⟨"T", "u9"⟩).fetchCalls
      = (initState ⟨[], []⟩ []).fetchCalls ++ ["u9"] := by
  have h := c8_error_containment [] failOracle (initState ⟨[], []⟩ []) ⟨"T", "u9"⟩ []
    (by decide) (by decide)
  exact ⟨h.2.2.1, h.2.2.2.2.2.1⟩

/-- C10: the in-memory progress record only grows during a run: from any
loop state, the downloaded and failed lists at that point are prefixes of
the corresponding lists in every later state, every checkpoint snapshot
made later extends them, and at the level of a whole run the loaded
record is a prefix of the final record and of every saved snapshot. -/
theorem c10_progress_monotone (dlSet : List String)
    (oracle : String → ReqResult × WriteResult) (st : LoopState) (gs : List Game)
    (items : List Game) (p0 : Progress) (files0 : List String) :
    (st.progress.downloaded <+: (runLoop dlSet oracle st gs).progress.downloaded ∧
      st.progress.failed <+: (runLoop dlSet oracle st gs).progress.failed) ∧
    (∀ s ∈ (runLoop dlSet oracle st gs).saves,
        s ∈ st.saves ∨
          (st.progress.downloaded <+: s.downloaded ∧ st.progress.failed <+: s.failed)) ∧
    (p0.downloaded <+: (runPipeline items p0 oracle files0).progress.downloaded ∧
      p0.failed <+: (runPipeline items p0 oracle files0).progress.failed) ∧
    (∀ s ∈ (runPipeline items p0 oracle files0).saves,
        p0.downloaded <+: s.downloaded ∧ p0.failed <+: s.failed) := by
  refine ⟨runLoop_progress_mono dlSet oracle gs st, runLoop_saves_mono dlSet oracle gs st, ?_, ?_⟩
  · unfold runPipeline runMain
    rcases hE : (dedupByUrl items).isEmpty with _ | _
    · simp only [hE, Bool.false_eq_true, if_false]
      exact runLoop_progress_mono p0.downloaded oracle (dedupByUrl items) (initState p0 files0)
    · simp only [hE, if_true]
      exact ⟨List.prefix_refl _, List.prefix_refl _⟩
  · unfold runPipeline runMain
    rcases hE : (dedupByUrl items).isEmpty with _ | _
    · simp only [hE, Bool.false_eq_true, if_false]
      intro s hs
      rw [List.mem_append, List.mem_singleton] at hs
      rcases hs with hs | hs
      · rcases runLoop_saves_mono p0.downloaded oracle (dedupByUrl items)
          (initState p0 files0) s hs with h | h
        · simp [initState] at h
        · exact h
      · subst hs
        exact runLoop_progress_mono p0.downloaded oracle (dedupByUrl items) (initState p0 files0)
    · simp only [hE, if_true]
      intro s hs
      simp at hs

/-- Witness for C10: a run starting from progress `{downloaded: ["x"],
failed: [("t","y")]}` makes one save, and the loaded lists are prefixes
of that snapshot's lists. -/
theorem c10_progress_monotone_witness :
    (Progress.mk ["x"] [⟨"t", "y"⟩]).downloaded
        <+: (Progress.mk ["x", "u1"] [⟨"t", "y"⟩]).downloaded ∧
    (Progress.mk ["x"] [⟨"t", "y"⟩]).failed
        <+: (Progress.mk ["x", "u1"] [⟨"t", "y"⟩]).failed := by
  have h := (c10_progress_monotone [] okOracle (initState ⟨[], []⟩ []) []
    [⟨"A", "u1"⟩] (Progress.mk ["x"] [⟨"t", "y"⟩]) []).2.2.2
  refine h ⟨["x", "u1"], [⟨"t", "y"⟩]⟩ ?_
  decide

/-- C6: checkpoint cadence.  A skipped item changes neither the resolved
count (`downloaded_count + failed_count`) nor the saves; an attempted
item increments the resolved count by one and a save is appended exactly
when the new resolved count is a multiple of 10, and the snapshot saved
is the progress record as updated by that very attempt (so at the 10th
resolved attempt it contains all 10 outcomes).  Concretely, a run over 10
fresh items makes exactly one periodic save, whose snapshot lists all 10
URLs. -/
theorem c6_checkpoint_cadence (dlSet : List String)
    (oracle : String → ReqResult × WriteResult) (st : LoopState) (g : Game) :
    (g.image_url ∈ dlSet →
      (processItem dlSet oracle st g).saves = st.saves ∧
      (processItem dlSet oracle st g).downloadedCount
          + (processItem dlSet oracle st g).failedCount
        = st.downloadedCount + st.failedCount) ∧
    (g.image_url ∉ dlSet →
      (processItem dlSet oracle st g).downloadedCount
          + (processItem dlSet oracle st g).failedCount
        = st.downloadedCount + st.failedCount + 1 ∧
      (processItem dlSet oracle st g).saves
        = st.saves ++
            (if ((processItem dlSet oracle st g).downloadedCount
                + (processItem dlSet oracle st g).failedCount) % 10 = 0 then
              [(processItem dlSet oracle st g).progress] else [])) ∧
    (runPipeline
        [⟨"t1", "u1"⟩, ⟨"t2", "u2"⟩, ⟨"t3", "u3"⟩, ⟨"t4", "u4"⟩, ⟨"t5", "u5"⟩,
         ⟨"t6", "u6"⟩, ⟨"t7", "u7"⟩, ⟨"t8", "u8"⟩, ⟨"t9", "u9"⟩, ⟨"t10", "u10"⟩]
        ⟨[], []⟩ okOracle []).periodicSaves
      = [⟨["u1", "u2", "u3", "u4", "u5", "u6", "u7", "u8", "u9", "u10"], []⟩] := by
  refine ⟨?_, ?_, by decide⟩
  · intro h
    rw [processItem_mem dlSet oracle st g h]
    exact ⟨rfl, rfl⟩
  · intro h
    rcases hs : download_image (oracle g.image_url).1 (oracle g.image_url).2 with _ | _
    · rw [processItem_not_mem_failure dlSet oracle st g h hs]
      exact ⟨by simp; omega, rfl⟩
    · rw [processItem_not_mem_success dlSet oracle st g h hs]
      exact ⟨by simp; omega, rfl⟩

/-- Witness for C6: starting from a state with 9 resolved attempts and no
prior saves, attempting a 10th fresh item triggers exactly one save whose
snapshot is the updated progress record. -/
theorem c6_checkpoint_cadence_witness :
    (processItem [] okOracle
        ⟨⟨["u1", "u2", "u3", "u4", "u5", "u6", "u7", "u8", "u9"], []⟩,
          9, 0, 0, [], ["u1", "u2", "u3", "u4", "u5", "u6", "u7", "u8", "u9"], 9, []⟩
        ⟨"t10", "u10"⟩).downloadedCount
      + (processItem [] okOracle
          ⟨⟨["u1", "u2", "u3", "u4", "u5", "u6", "u7", "u8", "u9"], []⟩,
            9, 0, 0, [], ["u1", "u2", "u3", "u4", "u5", "u6", "u7", "u8", "u9"], 9, []⟩
          ⟨"t10", "u10"⟩).failedCount = 9 + 0 + 1 := by
  have h := (c6_checkpoint_cadence [] okOracle
    ⟨⟨["u1", "u2", "u3", "u4", "u5", "u6", "u7", "u8", "u9"], []⟩,
      9, 0, 0, [], ["u1", "u2", "u3", "u4", "u5", "u6", "u7", "u8", "u9"], 9, []⟩
    ⟨"t10", "u10"⟩).2.1 (by decide)
  exact h.1

/-- C4 counterexample: `sanitize("mega   man!!")` is `"mega-man!!"`, not
`"mega-man"` — `'!'` is not one of the characters the sanitizer strips. -/
theorem c4_collision_counterexample :
    sanitize_filename "mega   man!!" = "mega-man!!" ∧
    sanitize_filename "mega   man!!" ≠ "mega-man" := by
  decide

/-- C4 amended: `sanitize("Mega Man") = "mega-man"`, while
`sanitize("mega   man!!") = "mega-man!!"` because `!` is not stripped;
for two titles that genuinely collide — `"Mega Man"` and
`"mega   man??"`, both sanitizing to `"mega-man"` — when the file for the
first item already exists on disk, the path resolved for the second is
`"mega-man-1"` followed by the extension. -/
theorem c4_collision_amended :
    sanitize_filename "Mega Man" = "mega-man" ∧
    sanitize_filename "mega   man!!" = "mega-man!!" ∧
    sanitize_filename "mega   man??" = "mega-man" ∧
    resolveFilename ["mega-man.png"] "mega-man" ".png" = "mega-man-1.png" ∧
    (runPipeline
        [⟨"Mega Man", "https://rec0ded88.com/NES_Covers-2D/a.png"⟩,
         ⟨"mega   man??", "https://rec0ded88.com/NES_Covers-2D/b.png"⟩]
        ⟨[], []⟩ okOracle []).files = ["mega-man.png", "mega-man-1.png"] := by
  decide

/-- C9: the code has no fallback for a degenerate stem.  A title of only
illegal characters sanitizes to the empty string and the pipeline then
writes the file whose whole name is the bare extension — there is no
positional-index (or any other) fallback in `main` (scraper.py lines
326-334). -/
theorem c9_degenerate_stem_eval :
    sanitize_filename "???" = "" ∧
    (runPipeline [⟨"???", "https://rec0ded88.com/NES_Covers-2D/x.png"⟩]
        ⟨[], []⟩ okOracle []).files = [".png"] := by
  decide

/-- C3 counterexample: on the early-return path (no items extracted) the
run performs no `save_progress` call at all, contradicting the claim that
a final save happens on every exit path. -/
theorem c3_final_save_counterexample :
    (runPipeline [] ⟨["x"], []⟩ okOracle []).saves = [] ∧
    (runPipeline [] ⟨["x"], []⟩ okOracle []).earlyReturn = true := by
  decide

/-- C3 amended: one final save is performed after the loop on normal
completion only; the early return when no items are extracted performs no
save at all, and a run aborted by an unrecoverable error keeps only the
periodic checkpoints already made — no final save happens on the abort
path. -/
theorem c3_final_save_amended (items : List Game) (k : Nat) (p0 : Progress)
    (oracle : String → ReqResult × WriteResult) (files0 : List String) :
    ((dedupByUrl items).isEmpty = false →
      (runPipeline items p0 oracle files0).saves
        = (runPipeline items p0 oracle files0).periodicSaves
            ++ [(runPipeline items p0 oracle files0).progress]) ∧
    ((dedupByUrl items).isEmpty = true →
      (runPipeline items p0 oracle files0).saves = []) ∧
    (runPipelineAborted items k p0 oracle files0).saves
      = (runPipelineAborted items k p0 oracle files0).periodicSaves := by
  refine ⟨?_, ?_, ?_⟩
  · intro h
    unfold runPipeline runMain
    simp only [h, Bool.false_eq_true, if_false]
  · intro h
    unfold runPipeline runMain
    simp only [h, if_true]
  · rcases hE : (dedupByUrl items).isEmpty with _ | _
    · simp [runPipelineAborted, hE]
    · simp [runPipelineAborted, hE]

/-- Witness for C3 amended: a one-item run ends with the final save; an
empty run saves nothing. -/
theorem c3_final_save_amended_witness :
    (runPipeline [⟨"A", "u1"⟩] ⟨[], []⟩ okOracle []).saves
      = (runPipeline [⟨"A", "u1"⟩] ⟨[], []⟩ okOracle []).periodicSaves
          ++ [(runPipeline [⟨"A", "u1"⟩] ⟨[], []⟩ okOracle []).progress] ∧
    (runPipeline [] ⟨[], []⟩ okOracle []).saves = [] := by
  exact ⟨(c3_final_save_amended [⟨"A", "u1"⟩] 0 ⟨[], []⟩ okOracle []).1 (by decide),
         (c3_final_save_amended [] 0 ⟨[], []⟩ okOracle []).2.1 (by decide)⟩

/-- C1 counterexample: with item list `[("A","u1")]` and loaded progress
`{downloaded: ["u1"]}`, the first run has no failures and downloads
nothing (the item is skipped), so the second run's `skipped` (= 1) is not
the first run's `downloaded` (= 0). -/
theorem c1_idempotence_counterexample :
    (runPipeline [⟨"A", "u1"⟩] ⟨["u1"], []⟩ okOracle []).failedCount = 0 ∧
    (runPipeline [⟨"A", "u1"⟩]
        (runPipeline [⟨"A", "u1"⟩] ⟨["u1"], []⟩ okOracle []).progress okOracle
        []).downloadedCount = 0 ∧
    (runPipeline [⟨"A", "u1"⟩]
          (runPipeline [⟨"A", "u1"⟩] ⟨["u1"], []⟩ okOracle []).progress okOracle
          []).skippedCount
      ≠ (runPipeline [⟨"A", "u1"⟩] ⟨["u1"], []⟩ okOracle []).downloadedCount := by
  decide

/-- C1 amended: after a run with no failures, a second run of the
pipeline on the same item list, starting from the progress record the
first run produced, downloads nothing, fails nothing and makes no fetch
calls, and its `skipped` counter equals the first run's `downloaded`
counter plus the first run's `skipped` counter (the deduplicated total). -/
theorem c1_idempotence_amended (items : List Game) (p0 : Progress)
    (oracle oracle2 : String → ReqResult × WriteResult) (files0 files2 : List String)
    (hfail : (runPipeline items p0 oracle files0).failedCount = 0) :
    (runPipeline items (runPipeline items p0 oracle files0).progress oracle2
        files2).downloadedCount = 0 ∧
    (runPipeline items (runPipeline items p0 oracle files0).progress oracle2
        files2).failedCount = 0 ∧
    (runPipeline items (runPipeline items p0 oracle files0).progress oracle2
        files2).fetchCalls = [] ∧
    (runPipeline items (runPipeline items p0 oracle files0).progress oracle2
        files2).skippedCount
      = (runPipeline items p0 oracle files0).downloadedCount
          + (runPipeline items p0 oracle files0).skippedCount := by
  unfold runPipeline runMain at hfail ⊢
  rcases hE : (dedupByUrl items).isEmpty with _ | _
  · simp only [hE, Bool.false_eq_true, if_false] at hfail ⊢
    have hfail0 : (runLoop p0.downloaded oracle (initState p0 files0)
        (dedupByUrl items)).failedCount = (initState p0 files0).failedCount := hfail
    have hmem : ∀ g ∈ dedupByUrl items,
        g.image_url ∈ (runLoop p0.downloaded oracle (initState p0 files0)
          (dedupByUrl items)).progress.downloaded :=
      runLoop_mem_downloaded p0.downloaded oracle (dedupByUrl items)
        (initState p0 files0) hfail0 (fun _ hu => hu)
    rw [runLoop_skip_all
      (runLoop p0.downloaded oracle (initState p0 files0) (dedupByUrl items)).progress.downloaded
      oracle2 (dedupByUrl items)
      (initState (runLoop p0.downloaded oracle (initState p0 files0)
        (dedupByUrl items)).progress files2) hmem]
    have hcounts := runLoop_counts p0.downloaded oracle (dedupByUrl items) (initState p0 files0)
    simp only [initState] at hcounts hfail ⊢
    refine ⟨by trivial, by trivial, by trivial, by omega⟩
  · simp only [hE, if_true] at hfail ⊢
    refine ⟨by trivial, by trivial, by trivial, by trivial⟩

/-- Witness for C1 amended at a concrete failure-free run. -/
theorem c1_idempotence_amended_witness :
    (runPipeline [⟨"A", "u1"⟩]
        (runPipeline [⟨"A", "u1"⟩] ⟨[], []⟩ okOracle []).progress okOracle
        []).downloadedCount = 0 ∧
    (runPipeline [⟨"A", "u1"⟩]
        (runPipeline [⟨"A", "u1"⟩] ⟨[], []⟩ okOracle []).progress okOracle
        []).failedCount = 0 ∧
    (runPipeline [⟨"A", "u1"⟩]
        (runPipeline [⟨"A", "u1"⟩] ⟨[], []⟩ okOracle []).progress okOracle
        []).fetchCalls = [] ∧
    (runPipeline [⟨"A", "u1"⟩]
        (runPipeline [⟨"A", "u1"⟩] ⟨[], []⟩ okOracle []).progress okOracle
        []).skippedCount
      = (runPipeline [⟨"A", "u1"⟩] ⟨[], []⟩ okOracle []).downloadedCount
          + (runPipeline [⟨"A", "u1"⟩] ⟨[], []⟩ okOracle []).skippedCount :=
  c1_idempotence_amended [⟨"A", "u1"⟩] ⟨[], []⟩ okOracle okOracle [] [] (by decide)

/-! ## Sanitizer lemmas: the code's pre-`strip()` is subsumed by
collapse-then-trim, so `sanitize_filename` equals the spec's step list. -/

theorem dropWhile_hy_collapseHyAux (m : List Char) :
    (collapseHyAux true m).dropWhile (fun c => c = '-')
      = (collapseHyAux false m).dropWhile (fun c => c = '-') := by
  rcases m with _ | ⟨c, cs⟩
  · rfl
  · by_cases hc : c = '-'
    · simp [collapseHyAux, hc, List.dropWhile]
    · simp [collapseHyAux, hc, List.dropWhile]

theorem stripHyphens_hyCons (m : List Char) :
    stripHyphens (collapseHyAux false ('-' :: m)) = stripHyphens (collapseHyAux false m) := by
  have h1 : collapseHyAux false ('-' :: m) = '-' :: collapseHyAux true m := by
    simp [collapseHyAux]
  unfold stripHyphens
  rw [h1]
  have h2 : ('-' :: collapseHyAux true m).dropWhile (fun c => c = '-')
      = (collapseHyAux true m).dropWhile (fun c => c = '-') := by
    simp [List.dropWhile]
  rw [h2, dropWhile_hy_collapseHyAux]

theorem sanCore_cons_space (c : Char) (l : List Char) (hc : pyIsSpace c = true) :
    sanCore (c :: l) = sanCore l := by
  unfold sanCore
  rcases l with _ | ⟨d, ls⟩
  · simp [collapseWsAux, hc, collapseHyAux, stripHyphens]
  · by_cases hd : pyIsSpace d
    · have h1 : collapseWsAux false (c :: d :: ls) = '-' :: collapseWsAux true ls := by
        simp [collapseWsAux, hc, hd]
      have h2 : collapseWsAux false (d :: ls) = '-' :: collapseWsAux true ls := by
        simp [collapseWsAux, hd]
      rw [h1, h2]
    · have h1 : collapseWsAux false (c :: d :: ls)
          = '-' :: d :: collapseWsAux false ls := by
        simp [collapseWsAux, hc, hd]
      have h2 : collapseWsAux false (d :: ls) = d :: collapseWsAux false ls := by
        simp [collapseWsAux, hd]
      rw [h1, h2]
      exact stripHyphens_hyCons _

theorem sanCore_dropWhile_space : ∀ l : List Char,
    sanCore (l.dropWhile pyIsSpace) = sanCore l
  | [] => rfl
  | c :: l => by
    by_cases hc : pyIsSpace c
    · have h1 : (c :: l).dropWhile pyIsSpace = l.dropWhile pyIsSpace := by
        simp [List.dropWhile, hc]
      rw [h1, sanCore_dropWhile_space l, sanCore_cons_space c l hc]
    · have h1 : (c :: l).dropWhile pyIsSpace = c :: l := by
        simp [List.dropWhile, hc]
      rw [h1]

theorem collapseWsAux_snoc (c : Char) : ∀ (l : List Char) (b : Bool),
    collapseWsAux b (l ++ [c])
      = collapseWsAux b l ++
          (if pyIsSpace c then (if endWs b l then [] else ['-']) else [c])
  | [], b => by
    by_cases hc : pyIsSpace c <;> by_cases hb : b = true <;>
      simp_all [collapseWsAux, endWs]
  | x :: l, b => by
    by_cases hx : pyIsSpace x
    · by_cases hb : b = true <;>
        simp_all [collapseWsAux, endWs, collapseWsAux_snoc c l]
    · simp_all [collapseWsAux, endWs, collapseWsAux_snoc c l]

theorem collapseHyAux_snoc (c : Char) : ∀ (l : List Char) (b : Bool),
    collapseHyAux b (l ++ [c])
      = collapseHyAux b l ++
          (if c = '-' then (if endHy b l then [] else ['-']) else [c])
  | [], b => by
    by_cases hc : c = '-' <;> by_cases hb : b = true <;>
      simp_all [collapseHyAux, endHy]
  | x :: l, b => by
    by_cases hx : x = '-'
    · by_cases hb : b = true <;>
        simp_all [collapseHyAux, endHy, collapseHyAux_snoc c l]
    · simp_all [collapseHyAux, endHy, collapseHyAux_snoc c l]

theorem stripHyphens_snoc_hy (k : List Char) :
    stripHyphens (k ++ ['-']) = stripHyphens k := by
  unfold stripHyphens
  rw [List.dropWhile_append]
  rcases hE : k.dropWhile (fun c => c = '-') with _ | ⟨d, ds⟩
  · simp [List.dropWhile]
  · have hd : ¬(d = '-') := by
      have := List.head?_dropWhile_not (fun c => c = '-') k
      rw [hE] at this
      simpa using this
    simp only [hE, List.isEmpty_cons, if_false, Bool.false_eq_true]
    rw [List.reverse_append]
    have h2 : (['-'].reverse ++ (d :: ds).reverse).dropWhile (fun c => c = '-')
        = (d :: ds).reverse.dropWhile (fun c => c = '-') := by
      simp [List.dropWhile]
    rw [h2]

theorem stripHyphens_collapseHy_snoc (m : List Char) :
    stripHyphens (collapseHyAux false (m ++ ['-'])) = stripHyphens (collapseHyAux false m) := by
  rw [collapseHyAux_snoc]
  by_cases hE : endHy false m = true
  · simp [hE]
  · simp only [if_pos rfl, hE, if_false, Bool.false_eq_true]
    exact stripHyphens_snoc_hy _

theorem sanCore_append_space (c : Char) (l : List Char) (hc : pyIsSpace c = true) :
    sanCore (l ++ [c]) = sanCore l := by
  unfold sanCore
  rw [collapseWsAux_snoc, hc, if_pos rfl]
  by_cases hE : endWs false l = true
  · simp [hE]
  · simp only [hE, if_false, Bool.false_eq_true]
    exact stripHyphens_collapseHy_snoc _

theorem sanCore_reverse_dropWhile : ∀ r : List Char,
    sanCore (r.dropWhile pyIsSpace).reverse = sanCore r.reverse
  | [] => rfl
  | c :: r => by
    by_cases hc : pyIsSpace c
    · have h1 : (c :: r).dropWhile pyIsSpace = r.dropWhile pyIsSpace := by
        simp [List.dropWhile, hc]
      rw [h1, sanCore_reverse_dropWhile r, List.reverse_cons]
      exact (sanCore_append_space c r.reverse hc).symm
    · have h1 : (c :: r).dropWhile pyIsSpace = c :: r := by
        simp [List.dropWhile, hc]
      rw [h1]

theorem sanCore_pyStrip (l : List Char) : sanCore (pyStrip l) = sanCore l := by
  unfold pyStrip
  rw [sanCore_reverse_dropWhile ((l.dropWhile pyIsSpace).reverse), List.reverse_reverse]
  exact sanCore_dropWhile_space l

/-- C7: the sanitizer implements exactly the specified algorithm — strip
the illegal characters `< > : " / \ | ? *`, collapse each whitespace run
into a single hyphen, collapse hyphen runs into one, trim leading and
trailing hyphens, lower-case, and truncate to at most 100 characters
after all other transformations (`sanitize_spec` is that step list
verbatim; the code's extra initial `strip()` changes nothing), and the
output never exceeds 100 characters. -/
theorem c7_sanitizer_algorithm (name : String) :
    sanitize_filename name = sanitize_spec name ∧
    (sanitize_filename name).length ≤ 100 := by
  constructor
  · have h := sanCore_pyStrip (name.data.filter (fun c => !(illegalChars.contains c)))
    unfold sanCore at h
    simp only [sanitize_filename, sanitize_spec]
    rw [h]
  · show (String.mk _).length ≤ 100
    simp only [String.length]
    rw [List.length_take]
    omega

end Scraper
